import Mathlib

/-!
Shallow embedding of the vocabulary-reminder bot (`src/bot.py`).

Modelling conventions:
* UTC timestamps (Python `datetime.utcnow().isoformat()` strings) are
  abstracted as naturals; ISO-8601 strings of the program compare
  lexicographically exactly as chronologically, so the abstraction is an
  order embedding.  The SQLite sentinel `'0000'` used by
  `COALESCE(last_seen,'0000')` sorts strictly before every timestamp the
  program ever writes, so a stored timestamp `t` is mapped to `t + 1` and
  the sentinel to `0`.
* The three SQL tables become three Lean lists held in a `DB` record;
  `SERIAL` / `AUTOINCREMENT` primary keys become the `nextVocabId` /
  `nextAnswerId` counters.
* `random.randint` / `random.choice` draws and SQL `random()` tie-break
  keys are passed in explicitly (a list of draws, a key assignment on row
  ids), so every operation is a pure function of its inputs.
* Local-time instants within the planning day are measured in minutes
  after local midnight; `run_at > now` on second-precision datetimes is
  equivalent to strict `>` on the minute values because every candidate
  has second component zero.
-/

namespace Bot

/-- A row of the `vocab` table (`CREATE TABLE vocab`, src/bot.py). -/
structure VocabRow where
  id : Nat
  chat_id : Int
  text : String
  last_seen : Option Nat
  strength : Nat
  active : Bool
deriving Repr, DecidableEq

/-- A row of the `answers` table (`CREATE TABLE answers`, src/bot.py). -/
structure AnswerRow where
  id : Nat
  chat_id : Int
  vocab_id : Nat
  text : String
  answered_at : Nat
deriving Repr, DecidableEq

/-- A row of the `users` table (`CREATE TABLE users`, src/bot.py). -/
structure UserRow where
  chat_id : Int
  tz : String
  start_hour : Int
  end_hour : Int
  daily_count : Int
deriving Repr, DecidableEq

/-- The persistent store: the three tables plus the auto-increment
counters of the `vocab` and `answers` primary keys. -/
structure DB where
  users : List UserRow
  vocab : List VocabRow
  answers : List AnswerRow
  nextVocabId : Nat
  nextAnswerId : Nat
deriving Repr, DecidableEq

/-- Column defaults of `CREATE TABLE users`:
`tz 'Europe/Kyiv', start_hour 10, end_hour 21, daily_count 3`. -/
def defaultUser (chat_id : Int) : UserRow :=
  ⟨chat_id, "Europe/Kyiv", 10, 21, 3⟩

/-- `SELECT * FROM users WHERE chat_id = ?` (at most one row: primary key). -/
def find_user (db : DB) (chat_id : Int) : Option UserRow :=
  db.users.find? (fun u => u.chat_id = chat_id)

/-- `get_user` (src/bot.py:161): return the row for `chat_id`, inserting a
default row first when none exists.  Returns the row together with the
possibly-extended store. -/
def get_user (db : DB) (chat_id : Int) : UserRow × DB :=
  match find_user db chat_id with
  | some u => (u, db)
  | none =>
      (defaultUser chat_id,
        { db with users := db.users ++ [defaultUser chat_id] })

/-- `set_user` (src/bot.py:172) as instantiated by `settings_cmd`:
`UPDATE users SET daily_count=?, start_hour=?, end_hour=?, tz=? WHERE chat_id=?`. -/
def set_user (db : DB) (chat_id : Int) (count start_h end_h : Int)
    (tzName : String) : DB :=
  { db with users := db.users.map (fun u =>
      if u.chat_id = chat_id then
        { u with daily_count := count, start_hour := start_h,
                 end_hour := end_h, tz := tzName }
      else u) }

/-- Python `str.strip()`: remove leading and trailing whitespace
characters, modelled on the string's character list. -/
def pyStrip (s : String) : String :=
  ⟨((s.data.dropWhile Char.isWhitespace).reverse.dropWhile
      Char.isWhitespace).reverse⟩

/-- `add_vocab` (src/bot.py:185): strip the text, do nothing when the
stripped text is empty, otherwise `INSERT INTO vocab(chat_id, text)` —
the remaining columns take their defaults `last_seen NULL, strength 0,
active 1`. -/
def add_vocab (db : DB) (chat_id : Int) (text : String) : DB :=
  let t := pyStrip text
  if t = "" then db
  else
    { db with
      vocab := db.vocab ++ [⟨db.nextVocabId, chat_id, t, none, 0, true⟩],
      nextVocabId := db.nextVocabId + 1 }

/-- `list_vocab` (src/bot.py:193):
`SELECT id, text, last_seen, strength FROM vocab WHERE chat_id=? AND active=1
ORDER BY id LIMIT ?`. -/
def list_vocab (db : DB) (chat_id : Int) (limit : Nat) : List VocabRow :=
  (List.insertionSort (fun a b => a.id ≤ b.id)
    (db.vocab.filter (fun r => r.chat_id = chat_id ∧ r.active))).take limit

/-- `remove_vocab` (src/bot.py:200):
`UPDATE vocab SET active=0 WHERE chat_id=? AND id=?`. -/
def remove_vocab (db : DB) (chat_id : Int) (vid : Nat) : DB :=
  { db with vocab := db.vocab.map (fun r =>
      if r.chat_id = chat_id ∧ r.id = vid then { r with active := false }
      else r) }

/-- `record_answer` (src/bot.py:225): first
`INSERT INTO answers(chat_id, vocab_id, text, answered_at)` stamped with
the current UTC instant, then, as a second independent write,
`UPDATE vocab SET last_seen=?, strength=strength+1 WHERE id=?` — note the
`WHERE` clause filters by `id` only, not by `chat_id`. -/
def record_answer (db : DB) (chat_id : Int) (vocab_id : Nat) (text : String)
    (now : Nat) : DB :=
  let db1 : DB := { db with
    answers := db.answers ++ [⟨db.nextAnswerId, chat_id, vocab_id, text, now⟩],
    nextAnswerId := db.nextAnswerId + 1 }
  { db1 with vocab := db1.vocab.map (fun r =>
      if r.id = vocab_id then
        { r with last_seen := some now, strength := r.strength + 1 }
      else r) }

/-- The rows `pick_vocab` selects from:
`WHERE chat_id=? AND active=1` over the `vocab` table. -/
def pickCandidates (db : DB) (chat_id : Int) : List VocabRow :=
  db.vocab.filter (fun r => r.chat_id = chat_id ∧ r.active)

/-- PostgreSQL `ORDER BY last_seen NULLS FIRST`: a null key sorts before
every non-null key, non-null keys compare by value.  Encoded as a pair
ordered lexicographically. -/
def pgNullsKey : Option Nat → Nat × Nat
  | none => (0, 0)
  | some t => (1, t)

/-- SQLite `COALESCE(last_seen,'0000')`: the sentinel string sorts
strictly before every ISO timestamp the program writes, so the sentinel
maps to `0` and a stored timestamp `t` to `t + 1`. -/
def sqliteCoalKey : Option Nat → Nat
  | none => 0
  | some t => t + 1

/-- Strict lexicographic order on quadruples of naturals, used for the
`ORDER BY k1, k2, k3, k4` comparison of sort keys. -/
def lex4Lt (a b : Nat × Nat × Nat × Nat) : Prop :=
  a.1 < b.1 ∨ (a.1 = b.1 ∧ (a.2.1 < b.2.1 ∨ (a.2.1 = b.2.1 ∧
    (a.2.2.1 < b.2.2.1 ∨ (a.2.2.1 = b.2.2.1 ∧ a.2.2.2 < b.2.2.2)))))

instance : DecidableRel lex4Lt := fun a b => by
  unfold lex4Lt; infer_instance

/-- Sort key of the PostgreSQL query
`ORDER BY last_seen NULLS FIRST, strength ASC, random()`: the null flag,
the timestamp value, the strength, then the per-row random draw `rho`. -/
def pgKey (rho : Nat → Nat) (r : VocabRow) : Nat × Nat × Nat × Nat :=
  ((pgNullsKey r.last_seen).1, (pgNullsKey r.last_seen).2, r.strength, rho r.id)

/-- Sort key of the SQLite query
`ORDER BY COALESCE(last_seen,'0000'), strength ASC, RANDOM()`; padded
with a leading `0` to share the quadruple shape. -/
def sqliteKey (rho : Nat → Nat) (r : VocabRow) : Nat × Nat × Nat × Nat :=
  (0, sqliteCoalKey r.last_seen, r.strength, rho r.id)

/-- `ORDER BY ... LIMIT 1` over a key function: the first candidate row
minimal under the strict key order (`none` on an empty candidate list). -/
def selectMin (key : VocabRow → Nat × Nat × Nat × Nat) :
    List VocabRow → Option VocabRow
  | [] => none
  | r :: rs => some (rs.foldl (fun best x =>
      if lex4Lt (key x) (key best) then x else best) r)

/-- `pick_vocab` (src/bot.py:205), PostgreSQL branch:
`SELECT ... FROM vocab WHERE chat_id=%s AND active=1
ORDER BY last_seen NULLS FIRST, strength ASC, random() LIMIT 1`.
`rho` assigns each row id its `random()` draw. -/
def pick_vocab_pg (db : DB) (chat_id : Int) (rho : Nat → Nat) :
    Option VocabRow :=
  selectMin (pgKey rho) (pickCandidates db chat_id)

/-- `pick_vocab` (src/bot.py:205), SQLite branch:
`SELECT ... FROM vocab WHERE chat_id=? AND active=1
ORDER BY COALESCE(last_seen,'0000'), strength ASC, RANDOM() LIMIT 1`. -/
def pick_vocab_sqlite (db : DB) (chat_id : Int) (rho : Nat → Nat) :
    Option VocabRow :=
  selectMin (sqliteKey rho) (pickCandidates db chat_id)

/-- `SELECT answered_at, text FROM answers WHERE chat_id=? ORDER BY
answered_at DESC` — the query behind `export_cmd` (src/bot.py:361). -/
def export_answers (db : DB) (chat_id : Int) : List (Nat × String) :=
  (List.insertionSort (fun a b => b.answered_at ≤ a.answered_at)
    (db.answers.filter (fun a => a.chat_id = chat_id))).map
    (fun a => (a.answered_at, a.text))

/-- An APScheduler job registered by `scheduler.add_job(send_prompt,
trigger=DateTrigger(run_date=t), args=[app, chat_id])`: the fire time (in
minutes after local midnight of the planning day) and the chat it
belongs to. -/
structure Job where
  run_at : Nat
  chat_id : Int
deriving Repr, DecidableEq

/-- Outcome of running the candidate-drawing `while` loop of
`schedule_today` (src/bot.py:251-257) against a finite trace of random
draws.  `ok` — the loop condition became false and the loop exited with
the collected set; `err` — a drawn hour was outside 0..23, so
`datetime.time(hour, minute)` raised `ValueError`; `more` — the trace is
exhausted but the loop condition still holds, so the loop is still
running (it would consume further draws). -/
inductive LoopOut where
  | ok (planned : List Nat)
  | err
  | more
deriving Repr, DecidableEq

/-- One draw of the loop body: `hour = random.randint(start_h,
max(start_h, end_h - 1))`, `minute = random.choice([5,15,25,35,45])`. -/
abbrev Draw := Int × Nat

/-- The `while len(planned) < max(1, min(12, count))` loop of
`schedule_today`: `planned` is the Python set of already-collected times
(as a duplicate-free list of minutes after midnight), each draw `(h, m)`
yields the candidate `run_at = h*60 + m` for today, kept only when
strictly later than `now`; `datetime.time` raises when the hour is
outside 0..23. -/
def drawLoop (target nowMin : Nat) : List Nat → List Draw → LoopOut
  | planned, [] =>
      if target ≤ planned.length then .ok planned else .more
  | planned, d :: rest =>
      if target ≤ planned.length then .ok planned
      else if d.1 < 0 ∨ 23 < d.1 then .err
      else
        let runAt := d.1.toNat * 60 + d.2
        drawLoop target nowMin
          (if nowMin < runAt ∧ runAt ∉ planned then runAt :: planned
           else planned) rest

/-- `max(1, min(12, count))` — the clamped daily target. -/
def clampCount (count : Int) : Nat := (max 1 (min 12 count)).toNat

/-- Outcome of `schedule_today`: normal return with the updated store and
job list, an escaped exception (store possibly extended by `get_user`,
no job registered), or a still-running drawing loop. -/
inductive SchedOut where
  | ok (db : DB) (jobs : List Job)
  | exn (db : DB)
  | hang (db : DB)
deriving Repr, DecidableEq

/-- `schedule_today` (src/bot.py:242): read the user's settings via
`get_user`, run the drawing loop, then register one job per planned time
in ascending order (`for t in sorted(planned): scheduler.add_job(...)`).
Timezone resolution is abstracted away: `nowMin` is the current local
time in minutes after midnight, and the draw trace is explicit. -/
def schedule_today (db : DB) (jobs : List Job) (chat_id : Int)
    (nowMin : Nat) (draws : List Draw) : SchedOut :=
  let p := get_user db chat_id
  match drawLoop (clampCount p.1.daily_count) nowMin [] draws with
  | .ok planned =>
      .ok p.2 (jobs ++ (List.insertionSort (fun a b => a ≤ b) planned).map
        (fun t => ⟨t, chat_id⟩))
  | .err => .exn p.2
  | .more => .hang p.2

/-- A raw command argument string together with what Python `int(...)`
makes of it: `some n` when the string parses as an integer, `none` when
`int` raises `ValueError` (non-numeric). -/
structure Arg where
  raw : String
  toInt : Option Int
deriving Repr, DecidableEq

/-- Messages `settings_cmd` sends back to the chat: the success
confirmation `"Оновлено: ..."` or the usage text. -/
inductive Msg where
  | updated (count start_h end_h : Int) (tzName : String)
  | usage
deriving Repr, DecidableEq

/-- `int(ctx.args[0]); int(ctx.args[1]); int(ctx.args[2])` under the
`len(ctx.args) >= 3` guard: `none` when fewer than three arguments are
given or any of the first three is non-numeric. -/
def parse3 (args : List Arg) : Option (Int × Int × Int) :=
  match args with
  | a0 :: a1 :: a2 :: _ =>
      match a0.toInt, a1.toInt, a2.toInt with
      | some c, some s, some e => some (c, s, e)
      | _, _, _ => none
  | _ => none

/-- Result of a `settings_cmd` invocation: the stores, the registered
jobs, the messages sent in order, and whether the handler is stuck
inside a still-running drawing loop. -/
structure SettingsOut where
  db : DB
  jobs : List Job
  msgs : List Msg
  stuck : Bool
deriving Repr, DecidableEq

/-- `ctx.args[3] if len(ctx.args) >= 4 else u["tz"]` — the timezone
argument of `settings_cmd`, falling back to the stored one. -/
def tzArg (args : List Arg) (fallback : String) : String :=
  match args with
  | _ :: _ :: _ :: a3 :: _ => a3.raw
  | _ => fallback

/-- `settings_cmd` (src/bot.py:312): `get_user`, then — when three
arguments are present and numeric — `set_user` persists count, start,
end and timezone as given (no range check, no clamping), the success
message is sent, and `schedule_today` runs; an exception anywhere inside
the `try` (in particular `ValueError` from an out-of-range hour inside
`schedule_today`) is swallowed by `except Exception: pass` and falls
through to the usage message.  Fewer than three arguments or a
non-numeric argument also fall through to the usage message, with no
write. -/
def settings_cmd (db : DB) (jobs : List Job) (chat_id : Int)
    (args : List Arg) (nowMin : Nat) (draws : List Draw) : SettingsOut :=
  let p := get_user db chat_id
  match parse3 args with
  | none => ⟨p.2, jobs, [.usage], false⟩
  | some (c, s, e) =>
      let tzName := tzArg args p.1.tz
      let db2 := set_user p.2 chat_id c s e tzName
      match schedule_today db2 jobs chat_id nowMin draws with
      | .ok db3 jobs3 => ⟨db3, jobs3, [.updated c s e tzName], false⟩
      | .exn db3 => ⟨db3, jobs, [.updated c s e tzName, .usage], false⟩
      | .hang db3 => ⟨db3, jobs, [.updated c s e tzName], true⟩

/-! ## Helper lemmas -/

theorem DB.ext2 (a b : DB) (h1 : a.users = b.users) (h2 : a.vocab = b.vocab)
    (h3 : a.answers = b.answers) (h4 : a.nextVocabId = b.nextVocabId)
    (h5 : a.nextAnswerId = b.nextAnswerId) : a = b := by
  cases a
  cases b
  simp_all

theorem remove_step_idem (chat_id : Int) (vid : Nat) (r : VocabRow) :
    (fun r => if r.chat_id = chat_id ∧ r.id = vid then
        { r with active := false } else r)
      ((fun r => if r.chat_id = chat_id ∧ r.id = vid then
        { r with active := false } else r) r) =
    (fun r => if r.chat_id = chat_id ∧ r.id = vid then
        { r with active := false } else r) r := by
  by_cases h : r.chat_id = chat_id ∧ r.id = vid <;> simp [h]

/-! ## C8 — `add_vocab` -/

/-- C8: `add_vocab` trims its input; when the trimmed text is empty the
store is left completely unchanged (no row inserted, no error); otherwise
exactly one active item is appended, with the trimmed text, strength 0
and null `last_seen`. -/
theorem add_vocab_spec (db : DB) (chat_id : Int) (text : String) :
    (pyStrip text = "" → add_vocab db chat_id text = db) ∧
    (pyStrip text ≠ "" →
      add_vocab db chat_id text =
        { db with
          vocab :=
            db.vocab ++
              [⟨db.nextVocabId, chat_id, pyStrip text, none, 0, true⟩],
          nextVocabId := db.nextVocabId + 1 }) := by
  constructor <;> intro h <;> simp [add_vocab, h]

/-- Witness for C8 at a blank string and at a padded string. -/
theorem add_vocab_spec_witness :
    add_vocab ⟨[], [], [], 0, 0⟩ 7 "   " = ⟨[], [], [], 0, 0⟩ ∧
    add_vocab ⟨[], [], [], 0, 0⟩ 7 " hi " =
      ⟨[], [⟨0, 7, "hi", none, 0, true⟩], [], 1, 0⟩ := by
  constructor
  · exact (add_vocab_spec ⟨[], [], [], 0, 0⟩ 7 "   ").1 (by decide)
  · have h := (add_vocab_spec ⟨[], [], [], 0, 0⟩ 7 " hi ").2 (by decide)
    rw [h]
    have ht : pyStrip " hi " = "hi" := by decide
    rw [ht]
    rfl

/-! ## C7 — `remove_vocab` -/

/-- C7: after `remove_vocab`, `list_vocab` never shows the removed id;
removing the same id twice gives the same store as removing it once; and
when no active row of that owner has the id (second removal or a
nonexistent id), `remove_vocab` leaves the store completely unchanged. -/
theorem remove_vocab_spec (db : DB) (chat_id : Int) (vid limit : Nat) :
    (∀ r ∈ list_vocab (remove_vocab db chat_id vid) chat_id limit,
      r.id ≠ vid) ∧
    remove_vocab (remove_vocab db chat_id vid) chat_id vid =
      remove_vocab db chat_id vid ∧
    ((∀ r ∈ db.vocab, r.chat_id = chat_id → r.id = vid → r.active = false) →
      remove_vocab db chat_id vid = db) := by
  refine ⟨?_, ?_, ?_⟩
  · intro r hr hrid
    have hr1 := List.take_subset limit _ hr
    rw [List.mem_insertionSort] at hr1
    have hr2 := List.of_mem_filter hr1
    have hr3 := List.mem_of_mem_filter hr1
    simp only [decide_eq_true_eq] at hr2
    simp only [remove_vocab, List.mem_map] at hr3
    obtain ⟨r0, _, hre⟩ := hr3
    by_cases hc : r0.chat_id = chat_id ∧ r0.id = vid
    · rw [if_pos hc] at hre
      subst hre
      exact absurd hr2.2 (by simp)
    · rw [if_neg hc] at hre
      subst hre
      exact hc ⟨hr2.1, hrid⟩
  · apply DB.ext2
    · simp [remove_vocab]
    · simp only [remove_vocab, List.map_map]
      apply List.map_congr_left
      intro r _
      simp only [Function.comp_apply]
      exact remove_step_idem chat_id vid r
    · simp [remove_vocab]
    · simp [remove_vocab]
    · simp [remove_vocab]
  · intro hno
    apply DB.ext2
    · simp [remove_vocab]
    · simp only [remove_vocab]
      have hid : ∀ r ∈ db.vocab, (if r.chat_id = chat_id ∧ r.id = vid then
          { r with active := false } else r) = id r := by
        intro r hr
        by_cases hc : r.chat_id = chat_id ∧ r.id = vid
        · have hact := hno r hr hc.1 hc.2
          rw [if_pos hc]
          cases r
          simp_all
        · rw [if_neg hc]
          rfl
      calc db.vocab.map _ = db.vocab.map id := List.map_congr_left hid
        _ = db.vocab := List.map_id db.vocab
    · simp [remove_vocab]
    · simp [remove_vocab]
    · simp [remove_vocab]

/-- Witness for C7: a store holding one already-removed row and one row
of another owner; removal of id 0 changes nothing. -/
theorem remove_vocab_spec_witness :
    (∀ r ∈ list_vocab
        (remove_vocab ⟨[], [⟨0, 7, "a", none, 0, false⟩], [], 1, 0⟩ 7 0)
        7 50, r.id ≠ 0) ∧
    remove_vocab (remove_vocab ⟨[], [⟨0, 7, "a", none, 0, false⟩], [], 1, 0⟩
        7 0) 7 0 =
      remove_vocab ⟨[], [⟨0, 7, "a", none, 0, false⟩], [], 1, 0⟩ 7 0 ∧
    remove_vocab ⟨[], [⟨0, 7, "a", none, 0, false⟩], [], 1, 0⟩ 7 0 =
      ⟨[], [⟨0, 7, "a", none, 0, false⟩], [], 1, 0⟩ := by
  have h := remove_vocab_spec ⟨[], [⟨0, 7, "a", none, 0, false⟩], [], 1, 0⟩
    7 0 50
  refine ⟨h.1, h.2.1, ?_⟩
  exact h.2.2 (by decide)

/-! ## C10 — `record_answer` matches the vocab row by id alone -/

/-- C10: `record_answer` updates the vocab row whose `id` equals the
given `vocab_id` even when that row's owner differs from the calling
owner (the `UPDATE ... WHERE id=?` clause has no owner filter), while the
appended answer row is stamped with the calling owner. -/
theorem record_answer_by_id (db : DB) (owner : Int) (vid : Nat)
    (text : String) (now : Nat) (r : VocabRow)
    (hmem : r ∈ db.vocab) (hid : r.id = vid) (_hown : r.chat_id ≠ owner) :
    { r with last_seen := some now, strength := r.strength + 1 } ∈
      (record_answer db owner vid text now).vocab ∧
    (record_answer db owner vid text now).answers =
      db.answers ++ [⟨db.nextAnswerId, owner, vid, text, now⟩] := by
  constructor
  · simp only [record_answer, List.mem_map]
    exact ⟨r, hmem, by rw [if_pos hid]⟩
  · simp [record_answer]

/-- Witness for C10: owner 9 records against a row owned by 7; the row
still receives the update, the answer row carries owner 9. -/
theorem record_answer_by_id_witness :
    { id := 0, chat_id := 7, text := "a", last_seen := some 5,
      strength := 3, active := true : VocabRow } ∈
      (record_answer ⟨[], [⟨0, 7, "a", some 4, 2, true⟩], [], 1, 0⟩
        9 0 "reply" 5).vocab ∧
    (record_answer ⟨[], [⟨0, 7, "a", some 4, 2, true⟩], [], 1, 0⟩
        9 0 "reply" 5).answers = [⟨0, 9, 0, "reply", 5⟩] := by
  have h := record_answer_by_id ⟨[], [⟨0, 7, "a", some 4, 2, true⟩], [], 1, 0⟩
    9 0 "reply" 5 ⟨0, 7, "a", some 4, 2, true⟩ (by decide) (by decide)
    (by decide)
  simpa using h

/-! ## Scheduler lemmas -/

/-- The contract of the loop body's random calls: `random.randint(a, b)`
returns a value in `[a, b]` and `random.choice` one of its arguments, so
every draw has `hour ∈ [start_h, max(start_h, end_h - 1)]` and
`minute ∈ {5,15,25,35,45}`. -/
def validDraw (s e : Int) (d : Draw) : Prop :=
  s ≤ d.1 ∧ d.1 ≤ max s (e - 1) ∧ d.2 ∈ ([5, 15, 25, 35, 45] : List Nat)

instance (s e : Int) (d : Draw) : Decidable (validDraw s e d) := by
  unfold validDraw
  infer_instance

theorem get_user_found (db : DB) (chat_id : Int) (u : UserRow)
    (hu : find_user db chat_id = some u) : get_user db chat_id = (u, db) := by
  simp [get_user, hu]

theorem schedule_today_eq (db : DB) (jobs : List Job) (chat_id : Int)
    (nowMin : Nat) (draws : List Draw) (u : UserRow)
    (hu : find_user db chat_id = some u) :
    schedule_today db jobs chat_id nowMin draws =
      match drawLoop (clampCount u.daily_count) nowMin [] draws with
      | .ok planned =>
          .ok db (jobs ++
            (List.insertionSort (fun a b => a ≤ b) planned).map
              (fun t => ⟨t, chat_id⟩))
      | .err => .exn db
      | .more => .hang db := by
  unfold schedule_today
  rw [get_user_found db chat_id u hu]

theorem schedule_today_eq2 (db : DB) (jobs : List Job) (chat_id : Int)
    (nowMin : Nat) (draws : List Draw) :
    schedule_today db jobs chat_id nowMin draws =
      match drawLoop (clampCount (get_user db chat_id).1.daily_count)
          nowMin [] draws with
      | .ok planned =>
          .ok (get_user db chat_id).2 (jobs ++
            (List.insertionSort (fun a b => a ≤ b) planned).map
              (fun t => ⟨t, chat_id⟩))
      | .err => .exn (get_user db chat_id).2
      | .more => .hang (get_user db chat_id).2 := by
  unfold schedule_today
  rfl

theorem clampCount_pos (c : Int) : 1 ≤ clampCount c := by
  unfold clampCount
  omega

theorem drawLoop_ok_spec (s e : Int) (hs : 0 ≤ s) (target nowMin : Nat) :
    ∀ (draws : List Draw) (planned : List Nat),
      (∀ d ∈ draws, validDraw s e d) →
      planned.Nodup →
      (∀ t ∈ planned, nowMin < t ∧
        s ≤ ((t / 60 : Nat) : Int) ∧
        ((t / 60 : Nat) : Int) ≤ max s (e - 1) ∧
        t % 60 ∈ ([5, 15, 25, 35, 45] : List Nat)) →
      planned.length ≤ target →
      ∀ out, drawLoop target nowMin planned draws = .ok out →
        out.Nodup ∧ out.length = target ∧
        ∀ t ∈ out, nowMin < t ∧
          s ≤ ((t / 60 : Nat) : Int) ∧
          ((t / 60 : Nat) : Int) ≤ max s (e - 1) ∧
          t % 60 ∈ ([5, 15, 25, 35, 45] : List Nat) := by
  intro draws
  induction draws with
  | nil =>
      intro planned _ hnd hprops hlen out hout
      simp only [drawLoop] at hout
      by_cases hc : target ≤ planned.length
      · rw [if_pos hc] at hout
        cases hout
        exact ⟨hnd, Nat.le_antisymm hlen hc, hprops⟩
      · rw [if_neg hc] at hout
        cases hout
  | cons d rest ih =>
      intro planned hdraws hnd hprops hlen out hout
      simp only [drawLoop] at hout
      by_cases hc : target ≤ planned.length
      · rw [if_pos hc] at hout
        cases hout
        exact ⟨hnd, Nat.le_antisymm hlen hc, hprops⟩
      · rw [if_neg hc] at hout
        have hd := hdraws d (by simp)
        have hd0 : 0 ≤ d.1 := le_trans hs hd.1
        have hbad : ¬ (d.1 < 0 ∨ 23 < d.1) := by
          intro hb
          rcases hb with hb | hb
          · omega
          · exact absurd hout (by rw [if_pos (Or.inr hb)]; intro h; cases h)
        rw [if_neg hbad] at hout
        have hm : d.2 ∈ ([5, 15, 25, 35, 45] : List Nat) := hd.2.2
        have hm60 : d.2 < 60 ∧ 5 ≤ d.2 := by
          simp only [List.mem_cons, List.not_mem_nil, or_false] at hm
          omega
        refine ih _ (fun x hx => hdraws x (List.mem_cons_of_mem d hx)) ?_ ?_ ?_ out hout
        · by_cases hins : nowMin < d.1.toNat * 60 + d.2 ∧
            d.1.toNat * 60 + d.2 ∉ planned
          · rw [if_pos hins]
            exact List.Nodup.cons hins.2 hnd
          · rw [if_neg hins]
            exact hnd
        · intro t ht
          by_cases hins : nowMin < d.1.toNat * 60 + d.2 ∧
            d.1.toNat * 60 + d.2 ∉ planned
          · rw [if_pos hins] at ht
            rcases List.mem_cons.mp ht with hteq | htold
            · subst hteq
              have hdiv : (d.1.toNat * 60 + d.2) / 60 = d.1.toNat := by omega
              have hmod : (d.1.toNat * 60 + d.2) % 60 = d.2 := by omega
              have hcast : ((d.1.toNat : Nat) : Int) = d.1 :=
                Int.toNat_of_nonneg hd0
              refine ⟨hins.1, ?_, ?_, ?_⟩
              · rw [hdiv, hcast]
                exact hd.1
              · rw [hdiv, hcast]
                exact hd.2.1
              · rw [hmod]
                exact hm
            · exact hprops t htold
          · rw [if_neg hins] at ht
            exact hprops t ht
        · by_cases hins : nowMin < d.1.toNat * 60 + d.2 ∧
            d.1.toNat * 60 + d.2 ∉ planned
          · rw [if_pos hins]
            simp only [List.length_cons]
            omega
          · rw [if_neg hins]
            exact hlen

theorem drawLoop_stuck (s e : Int) (hs : 0 ≤ s)
    (hmax23 : max s (e - 1) ≤ 23) (target nowMin : Nat)
    (htarget : 1 ≤ target)
    (hlate : (max s (e - 1)).toNat * 60 + 45 ≤ nowMin) :
    ∀ draws : List Draw, (∀ d ∈ draws, validDraw s e d) →
      drawLoop target nowMin [] draws = .more := by
  intro draws
  induction draws with
  | nil =>
      intro _
      simp only [drawLoop, List.length_nil]
      rw [if_neg (by omega)]
  | cons d rest ih =>
      intro hdraws
      obtain ⟨hd1, hd2, hd3⟩ := hdraws d (by simp)
      have hd0 : 0 ≤ d.1 := le_trans hs hd1
      have hd23 : d.1 ≤ 23 := le_trans hd2 hmax23
      have hm45 : d.2 ≤ 45 := by
        simp only [List.mem_cons, List.not_mem_nil, or_false] at hd3
        omega
      have hh : d.1.toNat ≤ (max s (e - 1)).toNat :=
        Int.toNat_le_toNat hd2
      simp only [drawLoop, List.length_nil]
      rw [if_neg (by omega), if_neg (by omega)]
      have hnofut : ¬ (nowMin < d.1.toNat * 60 + d.2 ∧
          d.1.toNat * 60 + d.2 ∉ ([] : List Nat)) := by
        intro hcon
        have hle : d.1.toNat * 60 + d.2 ≤ nowMin := by
          calc d.1.toNat * 60 + d.2 ≤ (max s (e - 1)).toNat * 60 + 45 := by
                have := Nat.mul_le_mul_right 60 hh
                omega
            _ ≤ nowMin := hlate
        omega
      rw [if_neg hnofut]
      exact ih (fun x hx => hdraws x (List.mem_cons_of_mem d hx))

/-! ## C1 — the drawing loop of `schedule_today` has no retry cap -/

/-- C1 (refuting the claimed cap): when the whole sampling window has
already elapsed for today (`now` at or past `effectiveEnd:45`), no draw
can produce a candidate strictly after `now`, so for EVERY finite trace
of random draws the `while` loop of `schedule_today` is still running —
the code has no retry cap and never reaches the job-registration step,
instead of scheduling zero reminders. -/
theorem schedule_today_elapsed_hangs (db : DB) (jobs : List Job)
    (chat_id : Int) (nowMin : Nat) (draws : List Draw) (u : UserRow)
    (hu : find_user db chat_id = some u)
    (hs : 0 ≤ u.start_hour)
    (hmax23 : max u.start_hour (u.end_hour - 1) ≤ 23)
    (hdraws : ∀ d ∈ draws, validDraw u.start_hour u.end_hour d)
    (hlate : (max u.start_hour (u.end_hour - 1)).toNat * 60 + 45 ≤ nowMin) :
    schedule_today db jobs chat_id nowMin draws = .hang db := by
  rw [schedule_today_eq db jobs chat_id nowMin draws u hu]
  rw [drawLoop_stuck u.start_hour u.end_hour hs hmax23
    (clampCount u.daily_count) nowMin (clampCount_pos u.daily_count)
    hlate draws hdraws]

/-- Witness for C1 at the spec's own scenario: window 10–12, 3 reminders
per day, planned at local 11:50 (= minute 710); the two shown draws are
exactly the extreme values `randint`/`choice` can produce, and the loop
is still running after them. -/
theorem schedule_today_elapsed_hangs_witness :
    schedule_today ⟨[⟨1, "Europe/Kyiv", 10, 12, 3⟩], [], [], 0, 0⟩ [] 1 710
      [(10, 5), (11, 45)] =
    .hang ⟨[⟨1, "Europe/Kyiv", 10, 12, 3⟩], [], [], 0, 0⟩ := by
  exact schedule_today_elapsed_hangs
    ⟨[⟨1, "Europe/Kyiv", 10, 12, 3⟩], [], [], 0, 0⟩ [] 1 710
    [(10, 5), (11, 45)] ⟨1, "Europe/Kyiv", 10, 12, 3⟩
    (by decide) (by decide) (by decide) (by decide) (by decide)

/-! ## C2 — shape of a completed plan -/

/-- C2: whenever the drawing loop of `schedule_today` completes, the
store is untouched and exactly `clamp(count,1,12)` jobs are appended
after the previously registered ones, in strictly ascending time order,
each strictly later than the planning instant, each with hour in
`[start_hour, max(start_hour, end_hour - 1)]` and minute in
`{5,15,25,35,45}`, each bound to the user's chat id. -/
theorem schedule_today_spec (db : DB) (jobs : List Job) (chat_id : Int)
    (nowMin : Nat) (draws : List Draw) (u : UserRow) (db2 : DB)
    (jobs2 : List Job)
    (hu : find_user db chat_id = some u)
    (hs : 0 ≤ u.start_hour)
    (_hse : u.start_hour < u.end_hour)
    (hdraws : ∀ d ∈ draws, validDraw u.start_hour u.end_hour d)
    (hok : schedule_today db jobs chat_id nowMin draws = .ok db2 jobs2) :
    db2 = db ∧
    ∃ new, jobs2 = jobs ++ new ∧
      new.length = clampCount u.daily_count ∧
      List.Pairwise (fun a b => a.run_at < b.run_at) new ∧
      ∀ j ∈ new, j.chat_id = chat_id ∧ nowMin < j.run_at ∧
        u.start_hour ≤ ((j.run_at / 60 : Nat) : Int) ∧
        ((j.run_at / 60 : Nat) : Int) ≤ max u.start_hour (u.end_hour - 1) ∧
        j.run_at % 60 ∈ ([5, 15, 25, 35, 45] : List Nat) := by
  rw [schedule_today_eq db jobs chat_id nowMin draws u hu] at hok
  cases hL : drawLoop (clampCount u.daily_count) nowMin [] draws with
  | ok planned =>
      rw [hL] at hok
      simp only [SchedOut.ok.injEq] at hok
      obtain ⟨hdb, hjobs⟩ := hok
      have hloop := drawLoop_ok_spec u.start_hour u.end_hour hs
        (clampCount u.daily_count) nowMin draws [] hdraws List.nodup_nil
        (by intro t ht; cases ht) (by simp) planned hL
      obtain ⟨hnd, hlenp, hpr⟩ := hloop
      have hperm : List.Perm (List.insertionSort (fun a b => a ≤ b) planned)
          planned := List.perm_insertionSort _ planned
      have hnds : (List.insertionSort (fun a b => a ≤ b) planned).Nodup :=
        (hperm.nodup_iff).mpr hnd
      have hsorted : List.Pairwise (fun a b => a ≤ b)
          (List.insertionSort (fun a b => a ≤ b) planned) :=
        List.sorted_insertionSort _ planned
      refine ⟨hdb.symm,
        (List.insertionSort (fun a b => a ≤ b) planned).map
          (fun t => ⟨t, chat_id⟩), hjobs.symm, ?_, ?_, ?_⟩
      · rw [List.length_map, List.length_insertionSort]
        exact hlenp
      · rw [List.pairwise_map]
        have hlt : List.Pairwise (fun a b => a < b)
            (List.insertionSort (fun a b => a ≤ b) planned) := by
          have hand := List.Pairwise.and hsorted hnds
          exact hand.imp (fun hab => lt_of_le_of_ne hab.1 hab.2)
        exact hlt
      · intro j hj
        rw [List.mem_map] at hj
        obtain ⟨t, htmem, hje⟩ := hj
        rw [List.mem_insertionSort] at htmem
        have := hpr t htmem
        subst hje
        exact ⟨rfl, this.1, this.2.1, this.2.2.1, this.2.2.2⟩
  | err =>
      rw [hL] at hok
      cases hok
  | more =>
      rw [hL] at hok
      cases hok

/-- Witness for C2: default user (window 10–21, 3 per day) planned at
09:00 with three distinct successful draws. -/
theorem schedule_today_spec_witness :
    ∃ new, ([⟨605, 1⟩, ⟨615, 1⟩, ⟨625, 1⟩] : List Job) = [] ++ new ∧
      new.length = clampCount 3 ∧
      List.Pairwise (fun a b => a.run_at < b.run_at) new ∧
      ∀ j ∈ new, j.chat_id = 1 ∧ 540 < j.run_at ∧
        (10 : Int) ≤ ((j.run_at / 60 : Nat) : Int) ∧
        ((j.run_at / 60 : Nat) : Int) ≤ max (10 : Int) (21 - 1) ∧
        j.run_at % 60 ∈ ([5, 15, 25, 35, 45] : List Nat) := by
  have h := schedule_today_spec
    ⟨[⟨1, "Europe/Kyiv", 10, 21, 3⟩], [], [], 0, 0⟩ [] 1 540
    [(10, 5), (10, 15), (10, 25)] ⟨1, "Europe/Kyiv", 10, 21, 3⟩
    ⟨[⟨1, "Europe/Kyiv", 10, 21, 3⟩], [], [], 0, 0⟩
    [⟨605, 1⟩, ⟨615, 1⟩, ⟨625, 1⟩]
    (by decide) (by decide) (by decide) (by decide) (by decide)
  exact h.2

/-! ## C6 — re-planning never cancels previously registered timers -/

/-- C6: when `schedule_today` completes, the job list it leaves behind is
the previously registered jobs, unchanged and in place, with the new
jobs appended after them — old and new timers coexist. -/
theorem schedule_today_no_cancel (db : DB) (jobs : List Job)
    (chat_id : Int) (nowMin : Nat) (draws : List Draw) (db2 : DB)
    (jobs2 : List Job)
    (hok : schedule_today db jobs chat_id nowMin draws = .ok db2 jobs2) :
    ∃ new, jobs2 = jobs ++ new ∧ ∀ j ∈ jobs, j ∈ jobs2 := by
  rw [schedule_today_eq2 db jobs chat_id nowMin draws] at hok
  cases hL : drawLoop (clampCount (get_user db chat_id).1.daily_count)
      nowMin [] draws with
  | ok planned =>
      rw [hL] at hok
      simp only [SchedOut.ok.injEq] at hok
      refine ⟨_, hok.2.symm, ?_⟩
      intro j hj
      rw [← hok.2]
      exact List.mem_append_left _ hj
  | err =>
      rw [hL] at hok
      cases hok
  | more =>
      rw [hL] at hok
      cases hok

/-- Witness for C6: a pre-existing timer at minute 400 survives a
completed re-plan that appends three new timers. -/
theorem schedule_today_no_cancel_witness :
    ∃ new, ([⟨400, 1⟩, ⟨605, 1⟩, ⟨615, 1⟩, ⟨625, 1⟩] : List Job) =
        [⟨400, 1⟩] ++ new ∧
      ∀ j ∈ ([⟨400, 1⟩] : List Job),
        j ∈ ([⟨400, 1⟩, ⟨605, 1⟩, ⟨615, 1⟩, ⟨625, 1⟩] : List Job) := by
  exact schedule_today_no_cancel
    ⟨[⟨1, "Europe/Kyiv", 10, 21, 3⟩], [], [], 0, 0⟩ [⟨400, 1⟩] 1 540
    [(10, 5), (10, 15), (10, 25)]
    ⟨[⟨1, "Europe/Kyiv", 10, 21, 3⟩], [], [], 0, 0⟩
    [⟨400, 1⟩, ⟨605, 1⟩, ⟨615, 1⟩, ⟨625, 1⟩] (by decide)

/-! ## C3 — `pick_vocab` selection order -/

theorem lex4Lt_irrefl (a : Nat × Nat × Nat × Nat) : ¬ lex4Lt a a := by
  unfold lex4Lt
  omega

theorem lex4Lt_trans {a b c : Nat × Nat × Nat × Nat}
    (h1 : lex4Lt a b) (h2 : lex4Lt b c) : lex4Lt a c := by
  unfold lex4Lt at h1 h2 ⊢
  omega

theorem lex4Lt_trichotomy (a b : Nat × Nat × Nat × Nat) :
    lex4Lt a b ∨ a = b ∨ lex4Lt b a := by
  obtain ⟨a1, a2, a3, a4⟩ := a
  obtain ⟨b1, b2, b3, b4⟩ := b
  unfold lex4Lt
  simp only [Prod.mk.injEq]
  omega

theorem foldl_min_spec (key : VocabRow → Nat × Nat × Nat × Nat) :
    ∀ (rs : List VocabRow) (b : VocabRow),
      (rs.foldl (fun best x =>
          if lex4Lt (key x) (key best) then x else best) b = b ∨
        rs.foldl (fun best x =>
          if lex4Lt (key x) (key best) then x else best) b ∈ rs) ∧
      ¬ lex4Lt (key b) (key (rs.foldl (fun best x =>
          if lex4Lt (key x) (key best) then x else best) b)) ∧
      ∀ x ∈ rs, ¬ lex4Lt (key x) (key (rs.foldl (fun best x =>
          if lex4Lt (key x) (key best) then x else best) b)) := by
  intro rs
  induction rs with
  | nil =>
      intro b
      refine ⟨Or.inl rfl, lex4Lt_irrefl _, ?_⟩
      intro x hx
      cases hx
  | cons x xs ih =>
      intro b
      simp only [List.foldl_cons]
      by_cases hc : lex4Lt (key x) (key b)
      · rw [if_pos hc]
        obtain ⟨hmem, hbnd, hall⟩ := ih x
        refine ⟨?_, ?_, ?_⟩
        · rcases hmem with hmem | hmem
          · exact Or.inr (by rw [hmem]; exact List.mem_cons_self x xs)
          · exact Or.inr (List.mem_cons_of_mem x hmem)
        · intro hcon
          exact hbnd (lex4Lt_trans hc hcon)
        · intro y hy
          rcases List.mem_cons.mp hy with hy | hy
          · subst hy
            exact hbnd
          · exact hall y hy
      · rw [if_neg hc]
        obtain ⟨hmem, hbnd, hall⟩ := ih b
        refine ⟨?_, hbnd, ?_⟩
        · rcases hmem with hmem | hmem
          · exact Or.inl hmem
          · exact Or.inr (List.mem_cons_of_mem x hmem)
        · intro y hy
          rcases List.mem_cons.mp hy with hy | hy
          · intro hcon
            rw [hy] at hcon
            rcases lex4Lt_trichotomy (key x) (key b) with h | h | h
            · exact hc h
            · exact hbnd (h ▸ hcon)
            · exact hbnd (lex4Lt_trans h hcon)
          · exact hall y hy

theorem selectMin_spec (key : VocabRow → Nat × Nat × Nat × Nat)
    (l : List VocabRow) :
    (selectMin key l = none ↔ l = []) ∧
    ∀ r, selectMin key l = some r → r ∈ l ∧
      ∀ x ∈ l, ¬ lex4Lt (key x) (key r) := by
  cases l with
  | nil =>
      constructor
      · simp [selectMin]
      · intro r hr
        cases hr
  | cons b rs =>
      constructor
      · simp [selectMin]
      · intro r hr
        simp only [selectMin, Option.some.injEq] at hr
        obtain ⟨hmem, hbnd, hall⟩ := foldl_min_spec key rs b
        rw [hr] at hmem hbnd hall
        constructor
        · rcases hmem with hmem | hmem
          · rw [hmem]
            exact List.mem_cons_self b rs
          · exact List.mem_cons_of_mem b hmem
        · intro x hx
          rcases List.mem_cons.mp hx with hx | hx
          · subst hx
            exact hbnd
          · exact hall x hx

theorem pg_sqlite_key_iff (rho : Nat → Nat) (x y : VocabRow) :
    lex4Lt (pgKey rho x) (pgKey rho y) ↔
    lex4Lt (sqliteKey rho x) (sqliteKey rho y) := by
  unfold pgKey sqliteKey pgNullsKey sqliteCoalKey lex4Lt
  cases x.last_seen <;> cases y.last_seen <;> simp

theorem selectMin_key_congr (k1 k2 : VocabRow → Nat × Nat × Nat × Nat)
    (hk : ∀ x y, lex4Lt (k1 x) (k1 y) ↔ lex4Lt (k2 x) (k2 y)) :
    ∀ l, selectMin k1 l = selectMin k2 l := by
  intro l
  cases l with
  | nil => rfl
  | cons b rs =>
      simp only [selectMin, Option.some.injEq]
      induction rs generalizing b with
      | nil => rfl
      | cons x xs ih =>
          simp only [List.foldl_cons]
          rw [show (if lex4Lt (k1 x) (k1 b) then x else b) =
            (if lex4Lt (k2 x) (k2 b) then x else b) from
            if_congr (hk x b) rfl rfl]
          exact ih _

/-- C3: on both backends, `pick_vocab` returns `none` exactly when the
owner has no active items; when it returns a row, that row is an active
item of the owner and no other such item sorts strictly before it under
the composite order (null `last_seen` first, then ascending `last_seen`,
then ascending `strength`, then the random draw `rho`); and the two
backends' queries agree for the same random draws. -/
theorem pick_vocab_spec (db : DB) (chat_id : Int) (rho : Nat → Nat) :
    (pick_vocab_pg db chat_id rho = none ↔
      pickCandidates db chat_id = []) ∧
    (pick_vocab_sqlite db chat_id rho = none ↔
      pickCandidates db chat_id = []) ∧
    (∀ r, pick_vocab_pg db chat_id rho = some r →
      r ∈ pickCandidates db chat_id ∧
      ∀ x ∈ pickCandidates db chat_id,
        ¬ lex4Lt (pgKey rho x) (pgKey rho r)) ∧
    (∀ r, pick_vocab_sqlite db chat_id rho = some r →
      r ∈ pickCandidates db chat_id ∧
      ∀ x ∈ pickCandidates db chat_id,
        ¬ lex4Lt (sqliteKey rho x) (sqliteKey rho r)) ∧
    pick_vocab_pg db chat_id rho = pick_vocab_sqlite db chat_id rho := by
  refine ⟨?_, ?_, ?_, ?_, ?_⟩
  · exact (selectMin_spec (pgKey rho) (pickCandidates db chat_id)).1
  · exact (selectMin_spec (sqliteKey rho) (pickCandidates db chat_id)).1
  · exact (selectMin_spec (pgKey rho) (pickCandidates db chat_id)).2
  · exact (selectMin_spec (sqliteKey rho) (pickCandidates db chat_id)).2
  · exact selectMin_key_congr (pgKey rho) (sqliteKey rho)
      (pg_sqlite_key_iff rho) (pickCandidates db chat_id)

/-- Witness for C3: among a never-seen item and an earlier-seen item of
the same owner, both backends pick the never-seen one, and it is minimal
under the composite order. -/
theorem pick_vocab_spec_witness :
    (⟨2, 7, "b", none, 5, true⟩ : VocabRow) ∈
      pickCandidates ⟨[], [⟨1, 7, "a", some 10, 0, true⟩,
        ⟨2, 7, "b", none, 5, true⟩], [], 3, 0⟩ 7 ∧
    ∀ x ∈ pickCandidates ⟨[], [⟨1, 7, "a", some 10, 0, true⟩,
        ⟨2, 7, "b", none, 5, true⟩], [], 3, 0⟩ 7,
      ¬ lex4Lt (pgKey (fun _ => 0) x)
        (pgKey (fun _ => 0) ⟨2, 7, "b", none, 5, true⟩) := by
  exact (pick_vocab_spec ⟨[], [⟨1, 7, "a", some 10, 0, true⟩,
    ⟨2, 7, "b", none, 5, true⟩], [], 3, 0⟩ 7 (fun _ => 0)).2.2.1
    ⟨2, 7, "b", none, 5, true⟩ (by decide)

/-! ## C4 — `record_answer` and monotonic evolution of vocab rows -/

/-- The store-mutating operations reachable from the bot's handlers,
used to quantify over arbitrary call sequences. -/
inductive Op where
  | add (chat : Int) (text : String)
  | remove (chat : Int) (vid : Nat)
  | record (chat : Int) (vid : Nat) (text : String) (now : Nat)
deriving Repr, DecidableEq

def applyOp (db : DB) : Op → DB
  | .add c t => add_vocab db c t
  | .remove c v => remove_vocab db c v
  | .record c v t n => record_answer db c v t n

def runOps (db : DB) : List Op → DB
  | [] => db
  | o :: os => runOps (applyOp db o) os

/-- `last_seen` of the row, when set, is at most `now`. -/
def seenLE (now : Nat) (r : VocabRow) : Bool :=
  match r.last_seen with
  | none => true
  | some t => decide (t ≤ now)

/-- Clock condition for one operation: a `record` call's instant is at
least every `last_seen` currently stored; other operations carry no
clock. -/
def clockOk (db : DB) : Op → Bool
  | .record _ _ _ now => db.vocab.all (seenLE now)
  | _ => true

/-- The real-time guarantee of `datetime.utcnow()` along a call
sequence: the clock never runs backwards. -/
def wellClocked (db : DB) : List Op → Bool
  | [] => true
  | o :: os => clockOk db o && wellClocked (applyOp db o) os

theorem applyOp_get_mono (db : DB) (o : Op)
    (hcl : clockOk db o = true)
    (i : Nat) (r : VocabRow) (hr : db.vocab[i]? = some r) :
    ∃ r2, (applyOp db o).vocab[i]? = some r2 ∧ r2.id = r.id ∧
      r.strength ≤ r2.strength ∧
      ∀ t, r.last_seen = some t → ∃ t2, r2.last_seen = some t2 ∧ t ≤ t2 := by
  have hi : i < db.vocab.length := by
    by_contra hcon
    rw [List.getElem?_eq_none (by omega)] at hr
    cases hr
  cases o with
  | add c txt =>
      by_cases he : pyStrip txt = ""
      · have heq : applyOp db (.add c txt) = db := by
          simp [applyOp, add_vocab, he]
        rw [heq, hr]
        exact ⟨r, rfl, rfl, le_refl _, fun t ht => ⟨t, ht, le_refl t⟩⟩
      · have heq : (applyOp db (.add c txt)).vocab =
            db.vocab ++ [⟨db.nextVocabId, c, pyStrip txt, none, 0, true⟩] := by
          simp [applyOp, add_vocab, he]
        rw [heq, List.getElem?_append, if_pos hi, hr]
        exact ⟨r, rfl, rfl, le_refl _, fun t ht => ⟨t, ht, le_refl t⟩⟩
  | remove c v =>
      have heq : (applyOp db (.remove c v)).vocab =
          db.vocab.map (fun r => if r.chat_id = c ∧ r.id = v then
            { r with active := false } else r) := by
        simp [applyOp, remove_vocab]
      rw [heq, List.getElem?_map, hr, Option.map_some']
      by_cases hc : r.chat_id = c ∧ r.id = v
      · rw [if_pos hc]
        exact ⟨_, rfl, rfl, le_refl _, fun t ht => ⟨t, ht, le_refl t⟩⟩
      · rw [if_neg hc]
        exact ⟨r, rfl, rfl, le_refl _, fun t ht => ⟨t, ht, le_refl t⟩⟩
  | record c v txt n =>
      have hall : db.vocab.all (seenLE n) = true := hcl
      have heq : (applyOp db (.record c v txt n)).vocab =
          db.vocab.map (fun r => if r.id = v then
            { r with last_seen := some n, strength := r.strength + 1 }
          else r) := by
        simp [applyOp, record_answer]
      rw [heq, List.getElem?_map, hr, Option.map_some']
      by_cases hc : r.id = v
      · rw [if_pos hc]
        refine ⟨_, rfl, rfl, by simp, ?_⟩
        intro t ht
        refine ⟨n, rfl, ?_⟩
        have hmem : r ∈ db.vocab := List.getElem?_mem hr
        have hsle := (List.all_eq_true.mp hall) _ hmem
        rw [seenLE, ht] at hsle
        exact of_decide_eq_true hsle
      · rw [if_neg hc]
        exact ⟨r, rfl, rfl, le_refl _, fun t ht => ⟨t, ht, le_refl t⟩⟩

theorem runOps_get_mono (ops : List Op) : ∀ (db : DB),
    wellClocked db ops = true →
    ∀ (i : Nat) (r : VocabRow), db.vocab[i]? = some r →
      ∃ r2, (runOps db ops).vocab[i]? = some r2 ∧ r2.id = r.id ∧
        r.strength ≤ r2.strength ∧
        ∀ t, r.last_seen = some t →
          ∃ t2, r2.last_seen = some t2 ∧ t ≤ t2 := by
  induction ops with
  | nil =>
      intro db _ i r hr
      exact ⟨r, hr, rfl, le_refl _, fun t ht => ⟨t, ht, le_refl t⟩⟩
  | cons o os ih =>
      intro db hwc i r hr
      rw [wellClocked, Bool.and_eq_true] at hwc
      obtain ⟨r1, hr1, hid1, hstr1, hls1⟩ := applyOp_get_mono db o hwc.1 i r hr
      obtain ⟨r2, hr2, hid2, hstr2, hls2⟩ :=
        ih (applyOp db o) hwc.2 i r1 hr1
      rw [runOps]
      refine ⟨r2, hr2, by rw [hid2, hid1], le_trans hstr1 hstr2, ?_⟩
      intro t ht
      obtain ⟨t1, ht1, hle1⟩ := hls1 t ht
      obtain ⟨t2, ht2, hle2⟩ := hls2 t1 ht1
      exact ⟨t2, ht2, le_trans hle1 hle2⟩

/-- C4: `record_answer` appends exactly one answer row stamped with the
current instant, and as a second write sets the referenced row's
`last_seen` to that same instant while incrementing its `strength` by
exactly 1; along every well-clocked sequence of store operations, each
row's `strength` never decreases and its `last_seen`, once set, never
decreases and never reverts to null. -/
theorem record_answer_spec (db : DB) (chat : Int) (vid : Nat)
    (text : String) (now : Nat) (ops : List Op)
    (hwc : wellClocked db ops = true) :
    (record_answer db chat vid text now).answers =
      db.answers ++ [⟨db.nextAnswerId, chat, vid, text, now⟩] ∧
    (∀ r ∈ db.vocab, r.id = vid →
      { r with last_seen := some now, strength := r.strength + 1 } ∈
        (record_answer db chat vid text now).vocab) ∧
    (∀ (i : Nat) (r : VocabRow), db.vocab[i]? = some r →
      ∃ r2, (runOps db ops).vocab[i]? = some r2 ∧ r2.id = r.id ∧
        r.strength ≤ r2.strength ∧
        ∀ t, r.last_seen = some t →
          ∃ t2, r2.last_seen = some t2 ∧ t ≤ t2) := by
  refine ⟨by simp [record_answer], ?_, runOps_get_mono ops db hwc⟩
  intro r hr hid
  simp only [record_answer, List.mem_map]
  exact ⟨r, hr, by rw [if_pos hid]⟩

/-- Witness for C4: a concrete four-operation run (record, remove, add,
cross-owner record) over a one-row store. -/
theorem record_answer_spec_witness :
    wellClocked ⟨[], [⟨0, 7, "a", some 3, 1, true⟩], [], 1, 0⟩
      [.record 7 0 "x" 5, .remove 7 0, .add 7 "b", .record 9 0 "y" 8] =
      true ∧
    (record_answer ⟨[], [⟨0, 7, "a", some 3, 1, true⟩], [], 1, 0⟩
        7 0 "x" 5).answers = [⟨0, 7, 0, "x", 5⟩] ∧
    (∀ (i : Nat) (r : VocabRow),
      ([⟨0, 7, "a", some 3, 1, true⟩] : List VocabRow)[i]? = some r →
      ∃ r2, (runOps ⟨[], [⟨0, 7, "a", some 3, 1, true⟩], [], 1, 0⟩
          [.record 7 0 "x" 5, .remove 7 0, .add 7 "b",
            .record 9 0 "y" 8]).vocab[i]? = some r2 ∧ r2.id = r.id ∧
        r.strength ≤ r2.strength ∧
        ∀ t, r.last_seen = some t →
          ∃ t2, r2.last_seen = some t2 ∧ t ≤ t2) := by
  have hwc : wellClocked ⟨[], [⟨0, 7, "a", some 3, 1, true⟩], [], 1, 0⟩
      [.record 7 0 "x" 5, .remove 7 0, .add 7 "b", .record 9 0 "y" 8] =
      true := by decide
  have h := record_answer_spec ⟨[], [⟨0, 7, "a", some 3, 1, true⟩], [], 1, 0⟩
    7 0 "x" 5
    [.record 7 0 "x" 5, .remove 7 0, .add 7 "b", .record 9 0 "y" 8] hwc
  exact ⟨hwc, h.1, h.2.2⟩
/-! ## C5 — `settings_cmd` validation behaviour -/

theorem find_user_set_user (db : DB) (chat_id c s e : Int)
    (tzName : String) (u : UserRow) (hu : find_user db chat_id = some u) :
    find_user (set_user db chat_id c s e tzName) chat_id =
      some { u with daily_count := c, start_hour := s, end_hour := e,
                    tz := tzName } := by
  have hu0 : db.users.find? (fun v => v.chat_id = chat_id) = some u := hu
  have hcid : u.chat_id = chat_id := by
    have := List.find?_some hu0
    simpa using this
  unfold find_user set_user
  rw [List.find?_map]
  have hfn : ((fun v : UserRow => decide (v.chat_id = chat_id)) ∘ (fun v =>
      if v.chat_id = chat_id then
        { v with daily_count := c, start_hour := s, end_hour := e,
                 tz := tzName }
      else v)) = (fun v : UserRow => decide (v.chat_id = chat_id)) := by
    funext v
    by_cases h : v.chat_id = chat_id <;> simp [h]
  rw [show ((fun v : UserRow => decide (v.chat_id = chat_id)) ∘ (fun v =>
      if v.chat_id = chat_id then
        { v with daily_count := c, start_hour := s, end_hour := e,
                 tz := tzName }
      else v)) = (fun v : UserRow => decide (v.chat_id = chat_id)) from hfn]
  rw [hu0]
  simp [hcid]

theorem settings_cmd_eq (db : DB) (jobs : List Job) (chat_id : Int)
    (args : List Arg) (nowMin : Nat) (draws : List Draw) (u : UserRow)
    (hu : find_user db chat_id = some u) :
    settings_cmd db jobs chat_id args nowMin draws =
      match parse3 args with
      | none => ⟨db, jobs, [.usage], false⟩
      | some (c, s, e) =>
          let tzName := tzArg args u.tz
          let db2 := set_user db chat_id c s e tzName
          match schedule_today db2 jobs chat_id nowMin draws with
          | .ok db3 jobs3 => ⟨db3, jobs3, [.updated c s e tzName], false⟩
          | .exn db3 => ⟨db3, jobs, [.updated c s e tzName, .usage], false⟩
          | .hang db3 => ⟨db3, jobs, [.updated c s e tzName], true⟩ := by
  unfold settings_cmd
  rw [get_user_found db chat_id u hu]

/-- Counterexample for C5 as frozen: a settings request with hours
outside 0–23 (`/settings 3 25 30`) DOES mutate persistent state — the
out-of-range hours are persisted by `set_user` before `schedule_today`
raises, and the usage message follows the already-sent success
message. -/
theorem settings_cmd_out_of_range_mutates :
    (settings_cmd ⟨[⟨7, "Europe/Kyiv", 10, 21, 3⟩], [], [], 0, 0⟩ [] 7
        [⟨"3", some 3⟩, ⟨"25", some 25⟩, ⟨"30", some 30⟩] 600
        [(25, 5)]).db ≠
      ⟨[⟨7, "Europe/Kyiv", 10, 21, 3⟩], [], [], 0, 0⟩ ∧
    find_user (settings_cmd ⟨[⟨7, "Europe/Kyiv", 10, 21, 3⟩], [], [], 0, 0⟩
        [] 7 [⟨"3", some 3⟩, ⟨"25", some 25⟩, ⟨"30", some 30⟩] 600
        [(25, 5)]).db 7 = some ⟨7, "Europe/Kyiv", 25, 30, 3⟩ ∧
    (settings_cmd ⟨[⟨7, "Europe/Kyiv", 10, 21, 3⟩], [], [], 0, 0⟩ [] 7
        [⟨"3", some 3⟩, ⟨"25", some 25⟩, ⟨"30", some 30⟩] 600
        [(25, 5)]).msgs =
      [.updated 3 25 30 "Europe/Kyiv", .usage] := by
  refine ⟨?_, by decide, by decide⟩
  intro hcon
  have h2 : find_user (settings_cmd ⟨[⟨7, "Europe/Kyiv", 10, 21, 3⟩], [],
      [], 0, 0⟩ [] 7 [⟨"3", some 3⟩, ⟨"25", some 25⟩, ⟨"30", some 30⟩] 600
      [(25, 5)]).db 7 = some ⟨7, "Europe/Kyiv", 25, 30, 3⟩ := by decide
  rw [hcon] at h2
  have : (⟨7, "Europe/Kyiv", 10, 21, 3⟩ : UserRow) =
      ⟨7, "Europe/Kyiv", 25, 30, 3⟩ := by
    have h3 : find_user ⟨[⟨7, "Europe/Kyiv", 10, 21, 3⟩], [], [], 0, 0⟩ 7 =
        some ⟨7, "Europe/Kyiv", 10, 21, 3⟩ := by decide
    rw [h3] at h2
    exact Option.some.inj h2
  cases this

/-- C5 as amended: requests with fewer than three arguments or a
non-numeric count/start/end argument mutate nothing and surface only the
usage message; requests with three numeric arguments are persisted
exactly as given — no range validation, no clamping — even when the
hours are outside 0–23. -/
theorem settings_cmd_spec (db : DB) (jobs : List Job) (chat_id : Int)
    (args : List Arg) (nowMin : Nat) (draws : List Draw) (u : UserRow)
    (hu : find_user db chat_id = some u) :
    (parse3 args = none →
      settings_cmd db jobs chat_id args nowMin draws =
        ⟨db, jobs, [.usage], false⟩) ∧
    (∀ c s e, parse3 args = some (c, s, e) →
      ∃ u2, find_user
          (settings_cmd db jobs chat_id args nowMin draws).db chat_id =
          some u2 ∧
        u2.daily_count = c ∧ u2.start_hour = s ∧ u2.end_hour = e) := by
  constructor
  · intro hnone
    rw [settings_cmd_eq db jobs chat_id args nowMin draws u hu, hnone]
  · intro c s e hsome
    rw [settings_cmd_eq db jobs chat_id args nowMin draws u hu, hsome]
    dsimp only
    have hu2 := find_user_set_user db chat_id c s e (tzArg args u.tz) u hu
    refine ⟨{ u with daily_count := c, start_hour := s, end_hour := e,
                     tz := tzArg args u.tz }, ?_, rfl, rfl, rfl⟩
    rw [schedule_today_eq (set_user db chat_id c s e (tzArg args u.tz))
      jobs chat_id nowMin draws
      { u with daily_count := c, start_hour := s, end_hour := e,
               tz := tzArg args u.tz } hu2]
    dsimp only
    cases hL : drawLoop (clampCount c) nowMin [] draws with
    | ok planned => exact hu2
    | err => exact hu2
    | more => exact hu2

/-- Witness for C5 (amended): a non-numeric request changes nothing; the
out-of-range request `/settings 3 25 30` persists count 3, start 25,
end 30 verbatim. -/
theorem settings_cmd_spec_witness :
    (settings_cmd ⟨[⟨7, "Europe/Kyiv", 10, 21, 3⟩], [], [], 0, 0⟩ [] 7
        [⟨"x", none⟩] 600 [] =
      ⟨⟨[⟨7, "Europe/Kyiv", 10, 21, 3⟩], [], [], 0, 0⟩, [],
        [.usage], false⟩) ∧
    (∃ u2, find_user (settings_cmd
        ⟨[⟨7, "Europe/Kyiv", 10, 21, 3⟩], [], [], 0, 0⟩ [] 7
        [⟨"3", some 3⟩, ⟨"25", some 25⟩, ⟨"30", some 30⟩] 600
        [(25, 5)]).db 7 = some u2 ∧
      u2.daily_count = 3 ∧ u2.start_hour = 25 ∧ u2.end_hour = 30) := by
  constructor
  · exact (settings_cmd_spec ⟨[⟨7, "Europe/Kyiv", 10, 21, 3⟩], [], [], 0, 0⟩
      [] 7 [⟨"x", none⟩] 600 [] ⟨7, "Europe/Kyiv", 10, 21, 3⟩
      (by decide)).1 (by decide)
  · exact (settings_cmd_spec ⟨[⟨7, "Europe/Kyiv", 10, 21, 3⟩], [], [], 0, 0⟩
      [] 7 [⟨"3", some 3⟩, ⟨"25", some 25⟩, ⟨"30", some 30⟩] 600
      [(25, 5)] ⟨7, "Europe/Kyiv", 10, 21, 3⟩ (by decide)).2 3 25 30
      (by decide)

/-! ## C9 — record / export round-trip -/

/-- A sequence of `record_answer` calls for one owner: each element is
`(now, vocab_id, text)` in call order. -/
def runRecs (chat : Int) : DB → List (Nat × Nat × String) → DB
  | db, [] => db
  | db, x :: rest => runRecs chat (record_answer db chat x.2.1 x.2.2 x.1) rest

/-- The answer rows such a sequence inserts, starting from a given
auto-increment counter. -/
def mkRows (chat : Int) : Nat → List (Nat × Nat × String) → List AnswerRow
  | _, [] => []
  | n, x :: rest => ⟨n, chat, x.2.1, x.2.2, x.1⟩ :: mkRows chat (n + 1) rest

theorem runRecs_answers (chat : Int) :
    ∀ (recs : List (Nat × Nat × String)) (db : DB),
      (runRecs chat db recs).answers =
        db.answers ++ mkRows chat db.nextAnswerId recs := by
  intro recs
  induction recs with
  | nil =>
      intro db
      simp [runRecs, mkRows]
  | cons x rest ih =>
      intro db
      rw [runRecs, ih, mkRows]
      simp [record_answer]

theorem mkRows_filter (chat : Int) :
    ∀ (recs : List (Nat × Nat × String)) (n : Nat),
      (mkRows chat n recs).filter (fun a => a.chat_id = chat) =
        mkRows chat n recs := by
  intro recs
  induction recs with
  | nil => intro n; rfl
  | cons x rest ih =>
      intro n
      rw [mkRows, List.filter_cons]
      rw [if_pos (by simp)]
      rw [ih (n + 1), ← mkRows]

theorem mkRows_map_key (chat : Int) :
    ∀ (recs : List (Nat × Nat × String)) (n : Nat),
      (mkRows chat n recs).map (fun a => a.answered_at) =
        recs.map (fun x => x.1) := by
  intro recs
  induction recs with
  | nil => intro n; rfl
  | cons x rest ih =>
      intro n
      rw [mkRows, List.map_cons, List.map_cons, ih (n + 1)]

theorem mkRows_map_pair (chat : Int) :
    ∀ (recs : List (Nat × Nat × String)) (n : Nat),
      (mkRows chat n recs).map (fun a => (a.answered_at, a.text)) =
        recs.map (fun x => (x.1, x.2.2)) := by
  intro recs
  induction recs with
  | nil => intro n; rfl
  | cons x rest ih =>
      intro n
      rw [mkRows, List.map_cons, List.map_cons, ih (n + 1)]

theorem mkRows_pairwise (chat : Int) :
    ∀ (recs : List (Nat × Nat × String)) (n : Nat),
      List.Pairwise (fun x y => x.1 < y.1) recs →
      List.Pairwise (fun a b => a.answered_at < b.answered_at)
        (mkRows chat n recs) := by
  intro recs
  induction recs with
  | nil =>
      intro n _
      exact List.Pairwise.nil
  | cons x rest ih =>
      intro n hp
      rw [List.pairwise_cons] at hp
      rw [mkRows]
      rw [List.pairwise_cons]
      refine ⟨?_, ih (n + 1) hp.2⟩
      intro b hb
      have hbk : b.answered_at ∈ (mkRows chat (n + 1) rest).map
          (fun a => a.answered_at) := List.mem_map_of_mem _ hb
      rw [mkRows_map_key chat rest (n + 1)] at hbk
      rw [List.mem_map] at hbk
      obtain ⟨y, hy, hyk⟩ := hbk
      rw [← hyk]
      exact hp.1 y hy

theorem orderedInsert_at_end (r : AnswerRow → AnswerRow → Prop)
    [DecidableRel r] (a : AnswerRow) :
    ∀ m : List AnswerRow, (∀ b ∈ m, ¬ r a b) →
      List.orderedInsert r a m = m ++ [a] := by
  intro m
  induction m with
  | nil => intro _; rfl
  | cons b m ih =>
      intro h
      rw [List.orderedInsert, if_neg (h b (by simp))]
      rw [ih (fun x hx => h x (List.mem_cons_of_mem b hx))]
      rfl

theorem sortDesc_of_ascending :
    ∀ l : List AnswerRow,
      List.Pairwise (fun a b => a.answered_at < b.answered_at) l →
      List.insertionSort (fun a b => b.answered_at ≤ a.answered_at) l =
        l.reverse := by
  intro l
  induction l with
  | nil => intro _; rfl
  | cons a l ih =>
      intro hp
      rw [List.pairwise_cons] at hp
      rw [List.insertionSort, ih hp.2, List.reverse_cons]
      apply orderedInsert_at_end
      intro b hb
      rw [List.mem_reverse] at hb
      have := hp.1 b hb
      omega

/-- C9: starting from a store with no answers for the owner, a sequence
of `record_answer` calls with strictly increasing instants makes the
export query return exactly one row per call, in reverse-chronological
order, carrying the recorded timestamps and texts. -/
theorem export_roundtrip (db : DB) (chat : Int)
    (recs : List (Nat × Nat × String))
    (h0 : db.answers.filter (fun a => a.chat_id = chat) = [])
    (hasc : List.Pairwise (fun x y => x.1 < y.1) recs) :
    export_answers (runRecs chat db recs) chat =
      (recs.map (fun x => (x.1, x.2.2))).reverse ∧
    (export_answers (runRecs chat db recs) chat).length = recs.length := by
  have hmain : export_answers (runRecs chat db recs) chat =
      (recs.map (fun x => (x.1, x.2.2))).reverse := by
    unfold export_answers
    rw [runRecs_answers chat recs db, List.filter_append, h0,
      mkRows_filter chat recs db.nextAnswerId]
    rw [List.nil_append]
    rw [sortDesc_of_ascending _ (mkRows_pairwise chat recs db.nextAnswerId
      hasc)]
    rw [List.map_reverse, mkRows_map_pair chat recs db.nextAnswerId]
  refine ⟨hmain, ?_⟩
  rw [hmain, List.length_reverse, List.length_map]

/-- Witness for C9: two recorded replies export as two rows, newest
first. -/
theorem export_roundtrip_witness :
    export_answers (runRecs 7 ⟨[], [], [], 0, 0⟩
        [(5, 0, "x"), (8, 1, "y")]) 7 = [(8, "y"), (5, "x")] ∧
    (export_answers (runRecs 7 ⟨[], [], [], 0, 0⟩
        [(5, 0, "x"), (8, 1, "y")]) 7).length = 2 := by
  have h := export_roundtrip ⟨[], [], [], 0, 0⟩ 7 [(5, 0, "x"), (8, 1, "y")]
    (by decide) (by decide)
  exact ⟨h.1, h.2⟩

end Bot
